import Mathlib

/-!
Verification of the session working-memory engine of this repository.

The definitions below are a shallow embedding of the TypeScript sources:
  * `src/src/context/types.ts` — the data model (`Todo`, `WorkingMemory`,
    `ConversationContext`, ...);
  * `src/src/context/context-aware-agent.ts` (the `MemoryManager` class in its
    embedded `memory` module) — all mutation and query operations, the
    three-tier todo sort and the context-summary renderer;
  * the extractor module (`detectUserIntent`).

Modelling conventions:
  * `Date` values are integer timestamps in milliseconds (`Int`), and every
    operation that reads the clock (`new Date()` / `Date.now()`) takes the
    current time as an explicit `now : Int` argument;
  * JavaScript `any`-typed analysis payloads are modelled by `JsValue`, a
    small value universe with the JavaScript truthiness predicate, so that
    the `!!data` coercions in the source are represented faithfully;
  * the `analyses` object is modelled as an association list in key-insertion
    order, matching JavaScript object key enumeration order;
  * `Array.prototype.sort(cmp)` is modelled by a stable insertion sort with
    the boolean relation `cmp a b <= 0`.  For comparator-consistent inputs
    this is exactly the ECMAScript-guaranteed behaviour (sorted and stable);
  * methods of `MemoryManager` become functions from `ConversationContext`
    to `ConversationContext` (mutators) or pure queries (readers).
-/

/-! ## Data model (`src/src/context/types.ts`) -/

/-- `type TodoStatus = "pending" | "in_progress" | "completed"`. -/
inductive TodoStatus
  | pending
  | in_progress
  | completed
deriving DecidableEq, Repr

/-- `type TodoPriority = "high" | "medium" | "low"`. -/
inductive TodoPriority
  | high
  | medium
  | low
deriving DecidableEq, Repr

/-- `interface Todo` — optional fields are `Option`s, `Date`s are `Int`
millisecond timestamps. -/
structure Todo where
  content : String
  activeForm : String
  status : TodoStatus
  priority : Option TodoPriority := none
  createdAt : Option Int := none
  completedAt : Option Int := none
deriving DecidableEq, Repr

/-- A JavaScript runtime value, as far as the cache cares: just enough to
model the `any`-typed `data` payloads and their truthiness. -/
inductive JsValue
  | vstr (s : String)
  | vnum (n : Int)
  | vbool (b : Bool)
  | vnull
  | vobj
deriving DecidableEq, Repr

/-- JavaScript truthiness of a `JsValue` (`!!v`): `""`, `0`, `false` and
`null` are falsy; objects are always truthy. -/
def JsValue.truthy : JsValue → Bool
  | .vstr s => s != ""
  | .vnum n => n != 0
  | .vbool b => b
  | .vnull => false
  | .vobj => true

/-- The four keys of `interface AnalysisCache`. -/
inductive AnalysisKind
  | competitor
  | market
  | customer
  | vcReport
deriving DecidableEq, Repr

/-- The string name of an analysis kind, as used by `Object.keys` and the
context renderer. -/
def AnalysisKind.name : AnalysisKind → String
  | .competitor => "competitor"
  | .market => "market"
  | .customer => "customer"
  | .vcReport => "vcReport"

/-- One cache slot: `{ data: any; timestamp: Date }`. -/
structure CacheEntry where
  data : JsValue
  timestamp : Int
deriving DecidableEq, Repr

/-- `stage?: "idea" | "mvp" | "launched"`. -/
inductive Stage
  | idea
  | mvp
  | launched
deriving DecidableEq, Repr

/-- `currentFocus?: "competitor" | "market" | "customer" | "strategy" | "general"`. -/
inductive Focus
  | competitor
  | market
  | customer
  | strategy
  | general
deriving DecidableEq, Repr

/-- The string value of a focus, as rendered into the context block. -/
def Focus.name : Focus → String
  | .competitor => "competitor"
  | .market => "market"
  | .customer => "customer"
  | .strategy => "strategy"
  | .general => "general"

/-- `interface IdeaContext`.  `description` is declared required in the
source, but `updateIdea` builds the object with a spread followed by an
`as IdeaContext` cast, so at runtime it can be absent; it is therefore an
`Option` here. -/
structure IdeaContext where
  description : Option String := none
  category : Option String := none
  targetMarket : Option String := none
  keyFeatures : Option (List String) := none
  stage : Option Stage := none
deriving DecidableEq, Repr

/-- A `Partial<IdeaContext>` argument: each field either supplied or absent. -/
structure IdeaPatch where
  description : Option String := none
  category : Option String := none
  targetMarket : Option String := none
  keyFeatures : Option (List String) := none
  stage : Option Stage := none
deriving DecidableEq, Repr

/-- `interface WorkingMemory`.  The `analyses` object is an association list
in key-insertion order (JavaScript object key order). -/
structure WorkingMemory where
  idea : Option IdeaContext := none
  analyses : List (AnalysisKind × CacheEntry) := []
  currentFocus : Option Focus := none
  recommendations : List String := []
  userConcerns : List String := []
  todos : List Todo := []
deriving DecidableEq, Repr

/-- `interface ConversationContext`. -/
structure ConversationContext where
  sessionId : String
  createdAt : Int
  lastUpdatedAt : Int
  workingMemory : WorkingMemory
  tokenCount : Nat := 0
deriving DecidableEq, Repr

/-! ## MemoryManager operations

Each method of the `MemoryManager` class becomes a function; `this.context`
becomes the explicit `ConversationContext` argument. -/

/-- The `MemoryManager` constructor: fresh empty working memory.  The session
id (caller-supplied, or the generated `session_<ts>_<random>` string) is an
opaque parameter. -/
def initCtx (sessionId : String) (now : Int) : ConversationContext :=
  { sessionId := sessionId
    createdAt := now
    lastUpdatedAt := now
    tokenCount := 0
    workingMemory := {} }

/-- `private touch(): void { this.context.lastUpdatedAt = new Date(); }` -/
def touch (now : Int) (ctx : ConversationContext) : ConversationContext :=
  { ctx with lastUpdatedAt := now }

/-- The spread merge `{ ...oldIdea, ...patch }` of `updateIdea`. -/
def mergeIdea (old : Option IdeaContext) (p : IdeaPatch) : IdeaContext :=
  { description := p.description <|> old.bind (·.description)
    category := p.category <|> old.bind (·.category)
    targetMarket := p.targetMarket <|> old.bind (·.targetMarket)
    keyFeatures := p.keyFeatures <|> old.bind (·.keyFeatures)
    stage := p.stage <|> old.bind (·.stage) }

/-- `updateIdea(idea: Partial<IdeaContext>)`. -/
def updateIdea (p : IdeaPatch) (now : Int) (ctx : ConversationContext) :
    ConversationContext :=
  touch now
    { ctx with
      workingMemory :=
        { ctx.workingMemory with idea := some (mergeIdea ctx.workingMemory.idea p) } }

/-- `getIdea(): IdeaContext | undefined`. -/
def getIdea (ctx : ConversationContext) : Option IdeaContext :=
  ctx.workingMemory.idea

/-- `hasIdea(): boolean { return !!this.context.workingMemory.idea?.description; }` -/
def hasIdea (ctx : ConversationContext) : Bool :=
  match ctx.workingMemory.idea with
  | none => false
  | some i =>
    match i.description with
    | none => false
    | some s => s != ""

/-- Assignment to a JavaScript object property: replace in place when the key
is already present (keeping its enumeration position), append otherwise. -/
def upsertEntry (k : AnalysisKind) (v : CacheEntry) :
    List (AnalysisKind × CacheEntry) → List (AnalysisKind × CacheEntry)
  | [] => [(k, v)]
  | (k', v') :: rest =>
    if k' = k then (k, v) :: rest else (k', v') :: upsertEntry k v rest

/-- `cacheAnalysis(type, data)`: overwrite the slot with `{data, timestamp: now}`. -/
def cacheAnalysis (k : AnalysisKind) (data : JsValue) (now : Int)
    (ctx : ConversationContext) : ConversationContext :=
  touch now
    { ctx with
      workingMemory :=
        { ctx.workingMemory with
          analyses := upsertEntry k { data := data, timestamp := now } ctx.workingMemory.analyses } }

/-- `const maxAge = 60 * 60 * 1000; // 1 hour` -/
def maxAgeMs : Int := 60 * 60 * 1000

/-- `getCachedAnalysis(type)`: `undefined` when no entry, `undefined` when
`Date.now() - timestamp > maxAge`, else the cached `data`. -/
def getCachedAnalysis (k : AnalysisKind) (now : Int) (ctx : ConversationContext) :
    Option JsValue :=
  match List.lookup k ctx.workingMemory.analyses with
  | none => none
  | some e => if now - e.timestamp > maxAgeMs then none else some e.data

/-- The method call as a state transition: `getCachedAnalysis` reads but never
writes `this.context`, so the state component is the identity. -/
def getCachedAnalysisCall (k : AnalysisKind) (now : Int)
    (ctx : ConversationContext) : Option JsValue × ConversationContext :=
  (getCachedAnalysis k now ctx, ctx)

/-- `hasAnalysis(type): boolean { return !!this.getCachedAnalysis(type); }` —
note the JavaScript double negation: a present, unexpired but falsy payload
yields `false`. -/
def hasAnalysis (k : AnalysisKind) (now : Int) (ctx : ConversationContext) : Bool :=
  match getCachedAnalysis k now ctx with
  | none => false
  | some v => v.truthy

/-- `getCompletedAnalyses()`: `Object.keys(analyses).filter(k => hasAnalysis(k))`. -/
def getCompletedAnalyses (now : Int) (ctx : ConversationContext) : List AnalysisKind :=
  (ctx.workingMemory.analyses.map Prod.fst).filter (fun k => hasAnalysis k now ctx)

/-- `setFocus(focus)`. -/
def setFocus (f : Option Focus) (now : Int) (ctx : ConversationContext) :
    ConversationContext :=
  touch now
    { ctx with workingMemory := { ctx.workingMemory with currentFocus := f } }

/-- `getFocus()`. -/
def getFocus (ctx : ConversationContext) : Option Focus :=
  ctx.workingMemory.currentFocus

/-- `addRecommendation(r)`: push only when `!recommendations.includes(r)`;
`touch` happens only inside that branch. -/
def addRecommendation (r : String) (now : Int) (ctx : ConversationContext) :
    ConversationContext :=
  if ctx.workingMemory.recommendations.contains r then ctx
  else
    touch now
      { ctx with
        workingMemory :=
          { ctx.workingMemory with
            recommendations := ctx.workingMemory.recommendations ++ [r] } }

/-- `getRecommendations()`. -/
def getRecommendations (ctx : ConversationContext) : List String :=
  ctx.workingMemory.recommendations

/-- `clearRecommendations()`. -/
def clearRecommendations (now : Int) (ctx : ConversationContext) :
    ConversationContext :=
  touch now
    { ctx with workingMemory := { ctx.workingMemory with recommendations := [] } }

/-- `addUserConcern(c)`: same idempotent-append shape as `addRecommendation`. -/
def addUserConcern (c : String) (now : Int) (ctx : ConversationContext) :
    ConversationContext :=
  if ctx.workingMemory.userConcerns.contains c then ctx
  else
    touch now
      { ctx with
        workingMemory :=
          { ctx.workingMemory with
            userConcerns := ctx.workingMemory.userConcerns ++ [c] } }

/-- `getUserConcerns()`. -/
def getUserConcerns (ctx : ConversationContext) : List String :=
  ctx.workingMemory.userConcerns

/-- `addTodo(content, activeForm, priority = "medium")`. -/
def addTodo (content activeForm : String) (pr : TodoPriority) (now : Int)
    (ctx : ConversationContext) : ConversationContext :=
  touch now
    { ctx with
      workingMemory :=
        { ctx.workingMemory with
          todos :=
            ctx.workingMemory.todos ++
              [{ content := content
                 activeForm := activeForm
                 status := .pending
                 priority := some pr
                 createdAt := some now
                 completedAt := none }] } }

/-- The per-item merge of `updateTodos`:
`createdAt: existing?.createdAt || newTodo.createdAt || new Date()` and
`completedAt: status === "completed" ? newTodo.completedAt || new Date() : undefined`.
(`Date` objects are always truthy, so `||` on them is `Option.orElse`.) -/
def reviseTodo (oldTodos : List Todo) (now : Int) (t : Todo) : Todo :=
  let existing := oldTodos.find? (fun e => e.content == t.content)
  { t with
    createdAt := (existing.bind (·.createdAt)) <|> t.createdAt <|> some now
    completedAt :=
      if t.status = .completed then t.completedAt <|> some now else none }

/-- `updateTodos(todos)`: full replace of the list, with `reviseTodo` applied
to every incoming item. -/
def updateTodos (newTodos : List Todo) (now : Int) (ctx : ConversationContext) :
    ConversationContext :=
  touch now
    { ctx with
      workingMemory :=
        { ctx.workingMemory with
          todos := newTodos.map (reviseTodo ctx.workingMemory.todos now) } }

/-- `updateTodoStatus(index, status)`: guarded by `if (todos[index])`, so an
out-of-range index is a silent no-op (not even `touch` runs). -/
def updateTodoStatus (index : Nat) (st : TodoStatus) (now : Int)
    (ctx : ConversationContext) : ConversationContext :=
  match ctx.workingMemory.todos[index]? with
  | none => ctx
  | some t =>
    touch now
      { ctx with
        workingMemory :=
          { ctx.workingMemory with
            todos :=
              ctx.workingMemory.todos.set index
                { t with
                  status := st
                  completedAt :=
                    if st = .completed then some now else t.completedAt } } }

/-! ## The three-tier sort (`sortTodos`, "YJ1") -/

/-- `STATUS_PRIORITY: in_progress 0, pending 1, completed 2`. -/
def statusRank : TodoStatus → Int
  | .in_progress => 0
  | .pending => 1
  | .completed => 2

/-- `PRIORITY_MAP: high 0, medium 1, low 2`. -/
def priorityRank : TodoPriority → Int
  | .high => 0
  | .medium => 1
  | .low => 2

/-- The comparator passed to `sort`: status difference, then priority
difference (absent priority read as `"medium"`), then `createdAt` difference
when both timestamps exist, else `0`. -/
def todoCmp (a b : Todo) : Int :=
  let sd := statusRank a.status - statusRank b.status
  if sd ≠ 0 then sd
  else
    let pd :=
      priorityRank (a.priority.getD .medium) - priorityRank (b.priority.getD .medium)
    if pd ≠ 0 then pd
    else
      match a.createdAt, b.createdAt with
      | some x, some y => x - y
      | _, _ => 0

/-- The boolean "not after" relation induced by the comparator. -/
def todoLe (a b : Todo) : Bool :=
  decide (todoCmp a b ≤ 0)

/-- Insert an element in front of the first entry it is `le`-before.  Helper
of the stable sort used to model `Array.prototype.sort`. -/
def insertLe {α : Type} (le : α → α → Bool) (a : α) : List α → List α
  | [] => [a]
  | b :: l => if le a b then a :: b :: l else b :: insertLe le a l

/-- Stable insertion sort.  For a consistent comparator this produces exactly
the (unique) stable sorted permutation that ECMAScript specifies for
`Array.prototype.sort`. -/
def sortLe {α : Type} (le : α → α → Bool) : List α → List α
  | [] => []
  | a :: l => insertLe le a (sortLe le l)

/-- `sortTodos()`: `[...todos].sort(cmp)` — does not mutate storage. -/
def sortTodos (ctx : ConversationContext) : List Todo :=
  sortLe todoLe ctx.workingMemory.todos

/-- `getTodos(): Todo[] { return this.sortTodos(); }` -/
def getTodos (ctx : ConversationContext) : List Todo :=
  sortTodos ctx

/-- The four counters of `getProgress()`.  (The floating-point `percentage`
field is not modelled; no verified property concerns it.) -/
structure ProgressStats where
  total : Nat
  completed : Nat
  inProgress : Nat
  pending : Nat
deriving DecidableEq, Repr

/-- `getProgress()`: counts by status over the unsorted stored list. -/
def getProgress (ctx : ConversationContext) : ProgressStats :=
  let ts := ctx.workingMemory.todos
  { total := ts.length
    completed := (ts.filter (fun t => t.status == .completed)).length
    inProgress := (ts.filter (fun t => t.status == .in_progress)).length
    pending := (ts.filter (fun t => t.status == .pending)).length }

/-- `hasIncompleteTodos()`. -/
def hasIncompleteTodos (ctx : ConversationContext) : Bool :=
  ctx.workingMemory.todos.any (fun t => t.status != .completed)

/-- `getCurrentTodo()`: first `in_progress` todo in unsorted storage order. -/
def getCurrentTodo (ctx : ConversationContext) : Option Todo :=
  ctx.workingMemory.todos.find? (fun t => t.status == .in_progress)

/-! ## Context rendering (`buildContextSummary`) -/

/-- The status icon of a rendered todo line. -/
def statusIcon : TodoStatus → String
  | .completed => "✓"
  | .in_progress => "⚡"
  | .pending => "⏳"

/-- `" [HIGH]"` for high, `" [LOW]"` for low, empty otherwise (also for an
absent priority). -/
def priorityTag : Option TodoPriority → String
  | some .high => " [HIGH]"
  | some .low => " [LOW]"
  | _ => ""

/-- The numbered todo lines (`index` starts at 0, rendered as `index + 1`). -/
def todoLines : Nat → List Todo → List String
  | _, [] => []
  | i, t :: ts =>
    ("  " ++ toString (i + 1) ++ ". " ++ statusIcon t.status ++ " " ++
        t.content ++ priorityTag t.priority) :: todoLines (i + 1) ts

/-- `if (idea.field) parts.push(label + field)` — pushed only when truthy. -/
def optLine (label : String) (v : Option String) : List String :=
  match v with
  | some s => if s == "" then [] else [label ++ s]
  | none => []

/-- Section 1 of the summary: the startup idea, guarded by `hasIdea()`. -/
def ideaSection (ctx : ConversationContext) : List String :=
  match ctx.workingMemory.idea with
  | none => []
  | some i =>
    match i.description with
    | none => []
    | some d =>
      if d == "" then []
      else
        ("STARTUP IDEA: " ++ d) ::
          (optLine "Target Market: " i.targetMarket ++ optLine "Category: " i.category)

/-- Section 2: the completed analyses, comma-joined. -/
def analysesSection (now : Int) (ctx : ConversationContext) : List String :=
  let completed := getCompletedAnalyses now ctx
  if completed.isEmpty then []
  else ["\nCOMPLETED ANALYSES: " ++ String.intercalate ", " (completed.map AnalysisKind.name)]

/-- Section 3: the current focus. -/
def focusSection (ctx : ConversationContext) : List String :=
  match ctx.workingMemory.currentFocus with
  | none => []
  | some f => ["\nCURRENT FOCUS: " ++ f.name]

/-- A header followed by `- item` bullets, or nothing when the list is empty. -/
def bulletBlock (header : String) (items : List String) : List String :=
  if items.isEmpty then []
  else [header ++ String.intercalate "\n" (items.map (fun s => "- " ++ s))]

/-- Section 4: user concerns. -/
def concernsSection (ctx : ConversationContext) : List String :=
  bulletBlock "\nUSER CONCERNS:\n" ctx.workingMemory.userConcerns

/-- Section 5: recommendations. -/
def recsSection (ctx : ConversationContext) : List String :=
  bulletBlock "\nRECOMMENDATIONS:\n" ctx.workingMemory.recommendations

/-- Section 6: the sorted todo list with progress header and, when one is in
progress, the current task. -/
def todosSection (ctx : ConversationContext) : List String :=
  let ts := getTodos ctx
  if ts.isEmpty then []
  else
    let pg := getProgress ctx
    ("\nTODOS (" ++ toString pg.completed ++ "/" ++ toString pg.total ++ " completed):") ::
      todoLines 0 ts ++
        (match getCurrentTodo ctx with
         | some t => ["\nCURRENT TASK: " ++ t.activeForm]
         | none => [])

/-- The `parts` array of `buildContextSummary`, in push order. -/
def contextParts (now : Int) (ctx : ConversationContext) : List String :=
  ideaSection ctx ++ analysesSection now ctx ++ focusSection ctx ++
    concernsSection ctx ++ recsSection ctx ++ todosSection ctx

/-- `buildContextSummary()`: the bounded block when any part exists, the empty
string otherwise. -/
def buildContextSummary (now : Int) (ctx : ConversationContext) : String :=
  let parts := contextParts now ctx
  if parts.length > 0 then
    "\n--- CONTEXT ---\n" ++ String.intercalate "\n" parts ++ "\n--- END CONTEXT ---\n"
  else ""

/-! ## Extractor (`detectUserIntent`) -/

/-- `message.toLowerCase()` modelled characterwise. -/
def strToLower (s : String) : String :=
  ⟨s.data.map Char.toLower⟩

/-- Substring search over character lists (the semantics of
`String.prototype.includes`). -/
def hasSub (needle : List Char) : List Char → Bool
  | [] => needle.isEmpty
  | c :: rest => needle.isPrefixOf (c :: rest) || hasSub needle rest

/-- `hay.includes(sub)`. -/
def includesStr (hay sub : String) : Bool :=
  hasSub sub.data hay.data

/-- The competitor keyword group, in source order. -/
def competitorKeywords : List String := ["竞对", "竞争对手", "competitor"]

/-- The market keyword group, in source order. -/
def marketKeywords : List String := ["市场", "market size", "tam", "机会"]

/-- The customer keyword group, in source order. -/
def customerKeywords : List String := ["客户", "用户画像", "customer", "target audience"]

/-- The report keyword group, in source order. -/
def reportKeywords : List String := ["完整报告", "评估报告", "vc", "full report", "comprehensive"]

/-- The return type of `detectUserIntent`. -/
inductive UserIntent
  | ask_competitor
  | ask_market
  | ask_customer
  | ask_report
  | general
deriving DecidableEq, Repr

/-- Whether any keyword of the group occurs in the lower-cased message (the
`||`-chains of `includes` tests in the source). -/
def matchesAny (lowerMsg : String) (kws : List String) : Bool :=
  kws.any (fun k => includesStr lowerMsg k)

/-- `detectUserIntent(message)`: the ordered keyword-group cascade. -/
def detectUserIntent (message : String) : UserIntent :=
  let lm := strToLower message
  if matchesAny lm competitorKeywords then .ask_competitor
  else if matchesAny lm marketKeywords then .ask_market
  else if matchesAny lm customerKeywords then .ask_customer
  else if matchesAny lm reportKeywords then .ask_report
  else .general

/-! ## Reachable MemoryManager states

`ConversationContext` values produced by the constructor followed by any
sequence of `MemoryManager` operations. -/

/-- Closure of the constructor under all mutation operations. -/
inductive Reachable : ConversationContext → Prop
  | init (sid : String) (now : Int) : Reachable (initCtx sid now)
  | updateIdea (p : IdeaPatch) (now : Int) {ctx : ConversationContext} :
      Reachable ctx → Reachable (updateIdea p now ctx)
  | cacheAnalysis (k : AnalysisKind) (d : JsValue) (now : Int)
      {ctx : ConversationContext} : Reachable ctx → Reachable (cacheAnalysis k d now ctx)
  | setFocus (f : Option Focus) (now : Int) {ctx : ConversationContext} :
      Reachable ctx → Reachable (setFocus f now ctx)
  | addRecommendation (r : String) (now : Int) {ctx : ConversationContext} :
      Reachable ctx → Reachable (addRecommendation r now ctx)
  | clearRecommendations (now : Int) {ctx : ConversationContext} :
      Reachable ctx → Reachable (clearRecommendations now ctx)
  | addUserConcern (c : String) (now : Int) {ctx : ConversationContext} :
      Reachable ctx → Reachable (addUserConcern c now ctx)
  | addTodo (content activeForm : String) (pr : TodoPriority) (now : Int)
      {ctx : ConversationContext} : Reachable ctx → Reachable (addTodo content activeForm pr now ctx)
  | updateTodos (ts : List Todo) (now : Int) {ctx : ConversationContext} :
      Reachable ctx → Reachable (updateTodos ts now ctx)
  | updateTodoStatus (i : Nat) (st : TodoStatus) (now : Int)
      {ctx : ConversationContext} : Reachable ctx → Reachable (updateTodoStatus i st now ctx)

/-! ## Concrete fixtures used by witnesses and counterexamples -/

def todoA : Todo :=
  { content := "A", activeForm := "doing A", status := .pending, createdAt := some 2 }

def todoB : Todo :=
  { content := "B", activeForm := "doing B", status := .pending }

def todoC : Todo :=
  { content := "C", activeForm := "doing C", status := .pending, createdAt := some 1 }

def ctxMixed : ConversationContext :=
  { sessionId := "s", createdAt := 0, lastUpdatedAt := 0,
    workingMemory := { todos := [todoA, todoB, todoC] } }

def deployTodo : Todo :=
  { content := "deploy", activeForm := "deploying", status := .pending,
    priority := some .high, createdAt := some 5 }

def fixTodo : Todo :=
  { content := "fix", activeForm := "fixing", status := .in_progress,
    priority := some .high, createdAt := some 9 }

def fixDone : Todo :=
  { content := "fix", activeForm := "fixing", status := .completed,
    priority := some .high, createdAt := some 9, completedAt := some 7 }

def ctxSortW : ConversationContext :=
  { sessionId := "s", createdAt := 0, lastUpdatedAt := 0,
    workingMemory := { todos := [deployTodo, fixTodo] } }

def ctxCache : ConversationContext :=
  { sessionId := "s", createdAt := 0, lastUpdatedAt := 0,
    workingMemory := { analyses := [(.market, { data := .vnum 7, timestamp := 0 })] } }

def ctxFalsy : ConversationContext :=
  { sessionId := "s", createdAt := 0, lastUpdatedAt := 0,
    workingMemory := { analyses := [(.competitor, { data := .vstr "", timestamp := 0 })] } }

def priorA : Todo :=
  { content := "A", activeForm := "doing A", status := .pending,
    priority := some .high, createdAt := some 100 }

def ctxPrior : ConversationContext :=
  { sessionId := "s", createdAt := 0, lastUpdatedAt := 0,
    workingMemory := { todos := [priorA] } }

def incomingA : Todo :=
  { content := "A", activeForm := "doing A", status := .completed, priority := some .high }

def ctxSeen : ConversationContext :=
  { sessionId := "s", createdAt := 0, lastUpdatedAt := 0,
    workingMemory := { userConcerns := ["pricing"], recommendations := ["ship"] } }

def ideaEmptyDesc : IdeaContext :=
  { description := some "", category := some "SaaS", targetMarket := some "smb" }

def ctxIdeaEmpty : ConversationContext :=
  { sessionId := "s", createdAt := 0, lastUpdatedAt := 0,
    workingMemory := { idea := some ideaEmptyDesc, userConcerns := ["pricing"] } }

/-! ## Lemmas about the stable sort -/

theorem mem_insertLe {α : Type} (le : α → α → Bool) (a : α) (l : List α) (x : α) :
    x ∈ insertLe le a l ↔ x = a ∨ x ∈ l := by
  induction l with
  | nil => simp [insertLe]
  | cons b t ih =>
    by_cases h : le a b = true
    · simp [insertLe, h]
    · simp [insertLe, h, ih]
      tauto

theorem perm_insertLe {α : Type} (le : α → α → Bool) (a : α) (l : List α) :
    List.Perm (insertLe le a l) (a :: l) := by
  induction l with
  | nil => simp [insertLe]
  | cons b t ih =>
    by_cases h : le a b = true
    · simp [insertLe, h]
    · simp only [insertLe, h, Bool.false_eq_true, if_false]
      exact (ih.cons b).trans (List.Perm.swap a b t)

theorem perm_sortLe {α : Type} (le : α → α → Bool) (l : List α) :
    List.Perm (sortLe le l) l := by
  induction l with
  | nil => simp [sortLe]
  | cons a t ih => exact (perm_insertLe le a (sortLe le t)).trans (ih.cons a)

theorem mem_sortLe {α : Type} (le : α → α → Bool) (l : List α) (x : α) :
    x ∈ sortLe le l ↔ x ∈ l :=
  (perm_sortLe le l).mem_iff

theorem sublist_insertLe {α : Type} (le : α → α → Bool) (a : α) {s' s : List α}
    (h : List.Sublist s' s) : List.Sublist s' (insertLe le a s) := by
  induction s generalizing s' with
  | nil =>
    rw [List.sublist_nil.mp h]
    exact List.nil_sublist _
  | cons b t ih =>
    by_cases hb : le a b = true
    · simp only [insertLe, hb, if_true]
      exact h.trans (List.sublist_cons_self a (b :: t))
    · simp only [insertLe, hb, Bool.false_eq_true, if_false]
      rcases List.sublist_cons_iff.mp h with h' | ⟨r, rfl, hr⟩
      · exact (ih h').cons b
      · exact (ih hr).cons₂ b

theorem pairKeep_insertLe {α : Type} (le : α → α → Bool) {a y : α} {s : List α}
    (hy : y ∈ s) (hle : le a y = true) : List.Sublist [a, y] (insertLe le a s) := by
  induction s with
  | nil => cases hy
  | cons b t ih =>
    by_cases hb : le a b = true
    · simp only [insertLe, hb, if_true]
      exact (List.singleton_sublist.mpr hy).cons₂ a
    · simp only [insertLe, hb, Bool.false_eq_true, if_false]
      rcases List.mem_cons.mp hy with rfl | hyt
      · exact absurd hle hb
      · exact (ih hyt).cons b

theorem pairKeep_sortLe {α : Type} (le : α → α → Bool) {x y : α} {l : List α}
    (h : List.Sublist [x, y] l) (hxy : le x y = true) :
    List.Sublist [x, y] (sortLe le l) := by
  induction l with
  | nil => exact absurd (List.sublist_nil.mp h) (by simp)
  | cons a t ih =>
    rcases List.sublist_cons_iff.mp h with h' | ⟨r, hr, hrt⟩
    · exact sublist_insertLe le a (ih h')
    · obtain ⟨h1, h2⟩ : x = a ∧ [y] = r := by
        injection hr with hx hrest
        exact ⟨hx, hrest⟩
      subst h1
      rw [← h2] at hrt
      have hyt : y ∈ t := List.singleton_sublist.mp hrt
      exact pairKeep_insertLe le ((mem_sortLe le t y).mpr hyt) hxy

theorem pairwise_insertLe {α : Type} (le : α → α → Bool) (P : α → Prop)
    (htot : ∀ u v, P u → P v → le u v = true ∨ le v u = true)
    (htrans : ∀ u v w, P u → P v → P w → le u v = true → le v w = true → le u w = true)
    {a : α} (ha : P a) {s : List α} :
    (∀ x ∈ s, P x) → List.Pairwise (fun u v => le u v = true) s →
      List.Pairwise (fun u v => le u v = true) (insertLe le a s) := by
  induction s with
  | nil => intro _ _; simp [insertLe]
  | cons b t ih =>
    intro hs hp
    have hb : P b := hs b (by simp)
    have ht : ∀ x ∈ t, P x := fun x hx => hs x (by simp [hx])
    rcases List.pairwise_cons.mp hp with ⟨hbt, hpt⟩
    by_cases hab : le a b = true
    · simp only [insertLe, hab, if_true]
      refine List.pairwise_cons.mpr ⟨?_, hp⟩
      intro z hz
      rcases List.mem_cons.mp hz with rfl | hzt
      · exact hab
      · exact htrans a b z ha hb (ht z hzt) hab (hbt z hzt)
    · simp only [insertLe, hab, Bool.false_eq_true, if_false]
      refine List.pairwise_cons.mpr ⟨?_, ih ht hpt⟩
      intro z hz
      rcases (mem_insertLe le a t z).mp hz with hz1 | hzt
      · rw [hz1]
        rcases htot a b ha hb with h | h
        · exact absurd h hab
        · exact h
      · exact hbt z hzt

theorem pairwise_sortLe {α : Type} (le : α → α → Bool) (P : α → Prop)
    (htot : ∀ u v, P u → P v → le u v = true ∨ le v u = true)
    (htrans : ∀ u v w, P u → P v → P w → le u v = true → le v w = true → le u w = true)
    {l : List α} :
    (∀ x ∈ l, P x) → List.Pairwise (fun u v => le u v = true) (sortLe le l) := by
  induction l with
  | nil => intro _; simp [sortLe]
  | cons a t ih =>
    intro hl
    exact pairwise_insertLe le P htot htrans (hl a (by simp))
      (fun x hx => hl x (by simp [(mem_sortLe le t x).mp hx]))
      (ih fun x hx => hl x (by simp [hx]))

theorem todoLe_char {a b : Todo} {ta tb : Int} (ha : a.createdAt = some ta)
    (hb : b.createdAt = some tb) :
    todoLe a b = true ↔
      (statusRank a.status < statusRank b.status ∨
        (statusRank a.status = statusRank b.status ∧
          (priorityRank (a.priority.getD .medium) < priorityRank (b.priority.getD .medium) ∨
            (priorityRank (a.priority.getD .medium) = priorityRank (b.priority.getD .medium) ∧
              ta ≤ tb)))) := by
  simp only [todoLe, todoCmp, ha, hb, decide_eq_true_eq]
  split_ifs with h1 h2 <;> omega

theorem todoLe_total_timed {a b : Todo} (ha : a.createdAt.isSome = true)
    (hb : b.createdAt.isSome = true) : todoLe a b = true ∨ todoLe b a = true := by
  obtain ⟨ta, hta⟩ := Option.isSome_iff_exists.mp ha
  obtain ⟨tb, htb⟩ := Option.isSome_iff_exists.mp hb
  rw [todoLe_char hta htb, todoLe_char htb hta]
  omega

theorem todoLe_trans_timed {a b c : Todo} (ha : a.createdAt.isSome = true)
    (hb : b.createdAt.isSome = true) (hc : c.createdAt.isSome = true)
    (hab : todoLe a b = true) (hbc : todoLe b c = true) : todoLe a c = true := by
  obtain ⟨ta, hta⟩ := Option.isSome_iff_exists.mp ha
  obtain ⟨tb, htb⟩ := Option.isSome_iff_exists.mp hb
  obtain ⟨tc, htc⟩ := Option.isSome_iff_exists.mp hc
  rw [todoLe_char hta htb] at hab
  rw [todoLe_char htb htc] at hbc
  rw [todoLe_char hta htc]
  omega

/-- C1 (amended): for every stored todo list, `sortTodos` (and `getTodos`, which
is definitionally the same) returns a permutation of the list in which every
tied pair (comparator value 0, which covers every pair lacking a common
`createdAt` tier) keeps its storage order, and which — whenever every stored
todo carries a `createdAt`, as is the case for every list the MemoryManager
itself builds — is ordered by status rank, then priority rank (absent priority
read as medium), then `createdAt` ascending.  The timestamp restriction is
forced by `sortTodos_mixed_counterexample`: with mixed present/absent
timestamps no output can be both comparator-ordered and stable. -/
theorem sortTodos_three_tier (ctx : ConversationContext) :
    List.Perm (sortTodos ctx) ctx.workingMemory.todos ∧
    getTodos ctx = sortTodos ctx ∧
    (∀ x y : Todo, List.Sublist [x, y] ctx.workingMemory.todos → todoCmp x y = 0 →
      List.Sublist [x, y] (sortTodos ctx)) ∧
    ((∀ t ∈ ctx.workingMemory.todos, t.createdAt.isSome = true) →
      List.Pairwise (fun a b => todoLe a b = true) (sortTodos ctx)) := by
  refine ⟨perm_sortLe todoLe _, rfl, ?_, ?_⟩
  · intro x y hxy hcmp
    exact pairKeep_sortLe todoLe hxy (by simp [todoLe, hcmp])
  · intro h
    exact pairwise_sortLe todoLe (fun t => t.createdAt.isSome = true)
      (fun u v hu hv => todoLe_total_timed hu hv)
      (fun u v w hu hv hw => todoLe_trans_timed hu hv hw) h

theorem sortTodos_three_tier_witness :
    List.Perm (sortTodos ctxSortW) ctxSortW.workingMemory.todos ∧
    List.Pairwise (fun a b => todoLe a b = true) (sortTodos ctxSortW) :=
  ⟨(sortTodos_three_tier ctxSortW).1,
   (sortTodos_three_tier ctxSortW).2.2.2 (by decide)⟩

/-- C1 counterexample: three pending todos `A (createdAt 2)`, `B (none)`,
`C (createdAt 1)`.  `A~B` and `B~C` are ties (so stability forces the storage
order `A, B, C`), yet `cmp A C = 1`, so the stable result — which the embedded
sort indeed returns unchanged — is not ordered by the comparator; the final
conjunct checks all six permutations: none is simultaneously
comparator-ordered and stable, so the claim fails at this input for any
implementation of the sort. -/
theorem sortTodos_mixed_counterexample :
    todoCmp todoA todoB = 0 ∧ todoCmp todoB todoC = 0 ∧ todoCmp todoA todoC = 1 ∧
    sortTodos ctxMixed = [todoA, todoB, todoC] ∧
    (¬ List.Pairwise (fun a b => todoLe a b = true) (sortTodos ctxMixed)) ∧
    ([[todoA, todoB, todoC], [todoA, todoC, todoB], [todoB, todoA, todoC],
      [todoB, todoC, todoA], [todoC, todoA, todoB], [todoC, todoB, todoA]].all
      (fun L => !(decide (List.Pairwise (fun a b => todoLe a b = true) L) &&
        (decide (L.indexOf todoA < L.indexOf todoB) &&
         decide (L.indexOf todoB < L.indexOf todoC)))) = true) := by
  decide

theorem lookup_some_mem {α β : Type} [BEq α] [LawfulBEq α] {k : α} {e : β}
    {l : List (α × β)} (h : List.lookup k l = some e) : k ∈ l.map Prod.fst := by
  induction l with
  | nil => simp [List.lookup] at h
  | cons p t ih =>
    obtain ⟨k', v⟩ := p
    by_cases hk : k = k'
    · simp [hk]
    · have hb : (k == k') = false := beq_false_of_ne hk
      rw [List.lookup, hb] at h
      simp [ih h, hk]

/-- C2: `getCachedAnalysis` returns the cached data exactly when an entry for
the kind exists and `now - timestamp ≤ 1 hour`; with no entry, or past the
TTL, it returns `none` (never an error — the function is total), and the call
leaves the store untouched (the expired entry is not deleted). -/
theorem getCachedAnalysis_ttl (ctx : ConversationContext) (k : AnalysisKind) (now : Int) :
    (List.lookup k ctx.workingMemory.analyses = none → getCachedAnalysis k now ctx = none) ∧
    (∀ e, List.lookup k ctx.workingMemory.analyses = some e →
      ((now - e.timestamp ≤ maxAgeMs → getCachedAnalysis k now ctx = some e.data) ∧
       (now - e.timestamp > maxAgeMs → getCachedAnalysis k now ctx = none))) ∧
    (getCachedAnalysisCall k now ctx).2 = ctx := by
  refine ⟨?_, ?_, rfl⟩
  · intro h
    simp [getCachedAnalysis, h]
  · intro e he
    constructor
    · intro hle
      simp only [getCachedAnalysis, he]
      rw [if_neg (by omega)]
    · intro hgt
      simp only [getCachedAnalysis, he]
      rw [if_pos hgt]

theorem getCachedAnalysis_ttl_witness :
    getCachedAnalysis .market 3600000 ctxCache = some (.vnum 7) ∧
    getCachedAnalysis .market 3600001 ctxCache = none ∧
    getCachedAnalysis .competitor 5 ctxCache = none :=
  ⟨((getCachedAnalysis_ttl ctxCache .market 3600000).2.1
      { data := .vnum 7, timestamp := 0 } (by decide)).1 (by decide),
   ((getCachedAnalysis_ttl ctxCache .market 3600001).2.1
      { data := .vnum 7, timestamp := 0 } (by decide)).2 (by decide),
   (getCachedAnalysis_ttl ctxCache .competitor 5).1 (by decide)⟩

/-- C3 counterexample: a `competitor` entry holding the empty string, cached
at time 0 and read at time 0, is present and unexpired, yet `hasAnalysis`
returns `false` and `getCompletedAnalyses` omits the kind — the `!!data`
coercion in the source makes falsy payloads count as absent. -/
theorem hasAnalysis_falsy_counterexample :
    List.lookup AnalysisKind.competitor ctxFalsy.workingMemory.analyses =
      some { data := .vstr "", timestamp := 0 } ∧
    ((0 : Int) - 0 ≤ maxAgeMs) ∧
    hasAnalysis .competitor 0 ctxFalsy = false ∧
    getCompletedAnalyses 0 ctxFalsy = [] := by
  decide

/-- C3 (amended): `hasAnalysis kind` is `true` iff a cache entry for the kind
exists, is unexpired, and its data is truthy (so falsy payloads such as `""`,
`0`, `false` or `null` report as not completed), and `getCompletedAnalyses`
contains exactly the kinds for which `hasAnalysis` holds. -/
theorem hasAnalysis_truthy_char (ctx : ConversationContext) (now : Int) :
    (∀ k, hasAnalysis k now ctx = true ↔
      ∃ e, List.lookup k ctx.workingMemory.analyses = some e ∧
        now - e.timestamp ≤ maxAgeMs ∧ e.data.truthy = true) ∧
    (∀ k, k ∈ getCompletedAnalyses now ctx ↔ hasAnalysis k now ctx = true) := by
  have hchar : ∀ k, hasAnalysis k now ctx = true ↔
      ∃ e, List.lookup k ctx.workingMemory.analyses = some e ∧
        now - e.timestamp ≤ maxAgeMs ∧ e.data.truthy = true := by
    intro k
    unfold hasAnalysis getCachedAnalysis
    cases h : List.lookup k ctx.workingMemory.analyses with
    | none => simp
    | some e =>
      by_cases hexp : now - e.timestamp > maxAgeMs
      · dsimp only
        rw [if_pos hexp]
        dsimp only
        constructor
        · intro hc
          exact absurd hc (by simp)
        · rintro ⟨e', he', hle, _⟩
          injection he' with hee
          subst hee
          omega
      · dsimp only
        rw [if_neg hexp]
        dsimp only
        constructor
        · intro ht
          exact ⟨e, rfl, by omega, ht⟩
        · rintro ⟨e', he', _, ht⟩
          injection he' with hee
          rw [hee]
          exact ht
  refine ⟨hchar, ?_⟩
  intro k
  simp only [getCompletedAnalyses, List.mem_filter]
  constructor
  · rintro ⟨_, hp⟩
    exact hp
  · intro hp
    obtain ⟨e, he, _, _⟩ := (hchar k).mp hp
    exact ⟨lookup_some_mem he, hp⟩

theorem hasAnalysis_truthy_char_witness :
    hasAnalysis .market 100 ctxCache = true ∧
    AnalysisKind.market ∈ getCompletedAnalyses 100 ctxCache := by
  have h := hasAnalysis_truthy_char ctxCache 100
  have h1 : hasAnalysis .market 100 ctxCache = true :=
    (h.1 .market).mpr ⟨{ data := .vnum 7, timestamp := 0 }, by decide, by decide, by decide⟩
  exact ⟨h1, (h.2 .market).mpr h1⟩

theorem contains_mem_iff {α : Type} [BEq α] [LawfulBEq α] {l : List α} {x : α} :
    l.contains x = true ↔ x ∈ l := by
  simp [List.contains, List.elem_iff]

theorem addUserConcern_mem_eq {ctx : ConversationContext} {x : String} {now : Int}
    (h : x ∈ ctx.workingMemory.userConcerns) : addUserConcern x now ctx = ctx := by
  unfold addUserConcern
  rw [if_pos (contains_mem_iff.mpr h)]

theorem addUserConcern_not_mem_eq {ctx : ConversationContext} {x : String} {now : Int}
    (h : x ∉ ctx.workingMemory.userConcerns) :
    (addUserConcern x now ctx).workingMemory.userConcerns =
      ctx.workingMemory.userConcerns ++ [x] := by
  unfold addUserConcern
  rw [if_neg (fun hc => h (contains_mem_iff.mp hc))]
  rfl

theorem addRecommendation_mem_eq {ctx : ConversationContext} {x : String} {now : Int}
    (h : x ∈ ctx.workingMemory.recommendations) : addRecommendation x now ctx = ctx := by
  unfold addRecommendation
  rw [if_pos (contains_mem_iff.mpr h)]

theorem addRecommendation_not_mem_eq {ctx : ConversationContext} {x : String} {now : Int}
    (h : x ∉ ctx.workingMemory.recommendations) :
    (addRecommendation x now ctx).workingMemory.recommendations =
      ctx.workingMemory.recommendations ++ [x] := by
  unfold addRecommendation
  rw [if_neg (fun hc => h (contains_mem_iff.mp hc))]
  rfl

theorem count_one_of_nodup_mem {α : Type} [BEq α] [LawfulBEq α] {l : List α} {x : α}
    (hn : l.Nodup) (hm : x ∈ l) : List.count x l = 1 := by
  induction l with
  | nil => cases hm
  | cons a t ih =>
    rcases List.mem_cons.mp hm with rfl | hmt
    · have hxt : x ∉ t := (List.nodup_cons.mp hn).1
      rw [List.count_cons]
      simp [List.count_eq_zero.mpr hxt]
    · have hna : (a == x) = false := by
        refine beq_false_of_ne fun h => ?_
        exact (List.nodup_cons.mp hn).1 (h ▸ hmt)
      rw [List.count_cons, hna]
      simp [ih (List.nodup_cons.mp hn).2 hmt]

theorem count_append_self {α : Type} [BEq α] [LawfulBEq α] {l : List α} {x : α}
    (h : x ∉ l) : List.count x (l ++ [x]) = 1 := by
  rw [List.count_append, List.count_eq_zero.mpr h, List.count_singleton]
  simp

theorem nodup_append_one {α : Type} {l : List α} {x : α} (hn : l.Nodup) (h : x ∉ l) :
    (l ++ [x]).Nodup := by
  rw [List.nodup_append]
  refine ⟨hn, by simp, ?_⟩
  intro a ha ha2
  rw [List.mem_singleton] at ha2
  exact h (ha2 ▸ ha)

theorem reachable_nodup {ctx : ConversationContext} (h : Reachable ctx) :
    ctx.workingMemory.userConcerns.Nodup ∧ ctx.workingMemory.recommendations.Nodup := by
  induction h with
  | init sid now => exact ⟨List.nodup_nil, List.nodup_nil⟩
  | updateIdea p now hprev ih => simpa [updateIdea, touch] using ih
  | cacheAnalysis k d now hprev ih => simpa [cacheAnalysis, touch] using ih
  | setFocus f now hprev ih => simpa [setFocus, touch] using ih
  | addRecommendation r now hprev ih =>
    rcases ih with ⟨hc, hr⟩
    unfold addRecommendation
    split
    · exact ⟨hc, hr⟩
    · next hmem =>
        refine ⟨hc, ?_⟩
        exact nodup_append_one hr fun hm => hmem (contains_mem_iff.mpr hm)
  | clearRecommendations now hprev ih =>
    exact ⟨by simpa [clearRecommendations, touch] using ih.1, by simp [clearRecommendations, touch]⟩
  | addUserConcern c now hprev ih =>
    rcases ih with ⟨hc, hr⟩
    unfold addUserConcern
    split
    · exact ⟨hc, hr⟩
    · next hmem =>
        refine ⟨?_, hr⟩
        exact nodup_append_one hc fun hm => hmem (contains_mem_iff.mpr hm)
  | addTodo content activeForm pr now hprev ih => simpa [addTodo, touch] using ih
  | updateTodos ts now hprev ih => simpa [updateTodos, touch] using ih
  | updateTodoStatus i st now hprev ih =>
    unfold updateTodoStatus
    split
    · exact ih
    · simpa [touch] using ih

/-- C4: `addUserConcern` and `addRecommendation` are idempotent appends — a
string already present leaves the whole context unchanged, an absent string is
appended at the end (preserving insertion order) — and from any reachable
MemoryManager state (whose lists are duplicate-free by `reachable_nodup`)
calling either twice with the same string leaves exactly one occurrence. -/
theorem addConcern_idem (ctx : ConversationContext) (x : String) (n1 n2 : Int) :
    (x ∈ ctx.workingMemory.userConcerns → addUserConcern x n1 ctx = ctx) ∧
    (x ∉ ctx.workingMemory.userConcerns →
      (addUserConcern x n1 ctx).workingMemory.userConcerns =
        ctx.workingMemory.userConcerns ++ [x]) ∧
    (x ∈ ctx.workingMemory.recommendations → addRecommendation x n1 ctx = ctx) ∧
    (x ∉ ctx.workingMemory.recommendations →
      (addRecommendation x n1 ctx).workingMemory.recommendations =
        ctx.workingMemory.recommendations ++ [x]) ∧
    (Reachable ctx →
      List.count x
          ((addUserConcern x n2 (addUserConcern x n1 ctx)).workingMemory.userConcerns) = 1 ∧
      List.count x
          ((addRecommendation x n2 (addRecommendation x n1 ctx)).workingMemory.recommendations) = 1) := by
  refine ⟨fun h => addUserConcern_mem_eq h, fun h => addUserConcern_not_mem_eq h,
    fun h => addRecommendation_mem_eq h, fun h => addRecommendation_not_mem_eq h, ?_⟩
  intro hreach
  obtain ⟨hcn, hrn⟩ := reachable_nodup hreach
  constructor
  · by_cases hmem : x ∈ ctx.workingMemory.userConcerns
    · rw [addUserConcern_mem_eq hmem, addUserConcern_mem_eq hmem]
      exact count_one_of_nodup_mem hcn hmem
    · have h1 := @addUserConcern_not_mem_eq ctx x n1 hmem
      have hmem1 : x ∈ (addUserConcern x n1 ctx).workingMemory.userConcerns := by
        rw [h1]
        simp
      rw [addUserConcern_mem_eq hmem1, h1]
      exact count_append_self hmem
  · by_cases hmem : x ∈ ctx.workingMemory.recommendations
    · rw [addRecommendation_mem_eq hmem, addRecommendation_mem_eq hmem]
      exact count_one_of_nodup_mem hrn hmem
    · have h1 := @addRecommendation_not_mem_eq ctx x n1 hmem
      have hmem1 : x ∈ (addRecommendation x n1 ctx).workingMemory.recommendations := by
        rw [h1]
        simp
      rw [addRecommendation_mem_eq hmem1, h1]
      exact count_append_self hmem

theorem addConcern_idem_witness :
    List.count "pricing"
        ((addUserConcern "pricing" 2 (addUserConcern "pricing" 1
          (initCtx "s" 0))).workingMemory.userConcerns) = 1 ∧
    List.count "ship"
        ((addRecommendation "ship" 2 (addRecommendation "ship" 1
          (initCtx "s" 0))).workingMemory.recommendations) = 1 :=
  ⟨((addConcern_idem (initCtx "s" 0) "pricing" 1 2).2.2.2.2 (Reachable.init "s" 0)).1,
   ((addConcern_idem (initCtx "s" 0) "ship" 1 2).2.2.2.2 (Reachable.init "s" 0)).2⟩

/-- C5: `updateTodos` replaces the stored list with exactly the incoming todos
(same length, same `content`/`activeForm`/`status`/`priority` position by
position); when the first prior todo with equal content has a `createdAt`,
that timestamp is kept; an incoming completed todo without `completedAt` gets
`completedAt = now` (a supplied one is kept); and a non-completed incoming
todo is stored with no `completedAt`. -/
theorem updateTodos_full_replace (ctx : ConversationContext) (newTodos : List Todo)
    (now : Int) :
    ((updateTodos newTodos now ctx).workingMemory.todos).length = newTodos.length ∧
    (∀ (i : Nat) (t : Todo), newTodos[i]? = some t →
      ∃ r : Todo, ((updateTodos newTodos now ctx).workingMemory.todos)[i]? = some r ∧
        r.content = t.content ∧ r.activeForm = t.activeForm ∧ r.status = t.status ∧
        r.priority = t.priority ∧
        (∀ e c, ctx.workingMemory.todos.find? (fun u => u.content == t.content) = some e →
          e.createdAt = some c → r.createdAt = some c) ∧
        (t.status = .completed → t.completedAt = none → r.completedAt = some now) ∧
        (t.status = .completed → ∀ c, t.completedAt = some c → r.completedAt = some c) ∧
        (t.status ≠ .completed → r.completedAt = none)) := by
  constructor
  · simp [updateTodos, touch]
  · intro i t ht
    refine ⟨reviseTodo ctx.workingMemory.todos now t, ?_, rfl, rfl, rfl, rfl, ?_, ?_, ?_, ?_⟩
    · simp [updateTodos, touch, List.getElem?_map, ht]
    · intro e c he hc
      simp [reviseTodo, he, hc]
    · intro hst hc
      simp [reviseTodo, hst, hc]
    · intro hst c hc
      simp [reviseTodo, hst, hc]
    · intro hst
      simp [reviseTodo, if_neg hst]

theorem updateTodos_full_replace_witness :
    ∃ r, ((updateTodos [incomingA] 200 ctxPrior).workingMemory.todos)[0]? = some r ∧
      r.createdAt = some 100 ∧ r.completedAt = some 200 ∧ r.status = .completed := by
  obtain ⟨r, h0, hcont, hact, hst, hpr, hcr, hcmpl, h8, h9⟩ :=
    (updateTodos_full_replace ctxPrior [incomingA] 200).2 0 incomingA (by decide)
  refine ⟨r, h0, ?_, ?_, ?_⟩
  · exact hcr priorA 100 (by decide) (by decide)
  · exact hcmpl (by decide) (by decide)
  · rw [hst]
    decide

/-- C6: an out-of-range index (`todos[i]? = none`, i.e. `length ≤ i`) makes
`updateTodoStatus` a total no-op — the context is returned unchanged, no
error —, while an in-range index updates exactly that todo in unsorted
storage order, setting its status and giving it `completedAt = now` exactly
when the new status is `completed` (otherwise the old `completedAt` stays). -/
theorem updateTodoStatus_tolerant (ctx : ConversationContext) (i : Nat)
    (st : TodoStatus) (now : Int) :
    (ctx.workingMemory.todos[i]? = none ↔ ctx.workingMemory.todos.length ≤ i) ∧
    (ctx.workingMemory.todos[i]? = none → updateTodoStatus i st now ctx = ctx) ∧
    (∀ t, ctx.workingMemory.todos[i]? = some t →
      (updateTodoStatus i st now ctx).workingMemory.todos =
        ctx.workingMemory.todos.set i
          { t with
              status := st
              completedAt := if st = .completed then some now else t.completedAt }) := by
  refine ⟨List.getElem?_eq_none_iff, ?_, ?_⟩
  · intro h
    unfold updateTodoStatus
    rw [h]
  · intro t h
    unfold updateTodoStatus
    rw [h]
    rfl

theorem updateTodoStatus_tolerant_witness :
    updateTodoStatus 99 .completed 7 ctxSortW = ctxSortW ∧
    (updateTodoStatus 1 .completed 7 ctxSortW).workingMemory.todos =
      ctxSortW.workingMemory.todos.set 1 fixDone := by
  constructor
  · exact (updateTodoStatus_tolerant ctxSortW 99 .completed 7).2.1 (by decide)
  · have h := (updateTodoStatus_tolerant ctxSortW 1 .completed 7).2.2 fixTodo (by decide)
    rw [h]
    decide

/-- C7 counterexample: on a state whose concern list already holds
`"pricing"` (and recommendation list `"ship"`), `addUserConcern "pricing"`,
`addRecommendation "ship"` and the out-of-range `updateTodoStatus 99` all
leave `lastUpdatedAt` at its old value `0` instead of the current time `5` —
the source only calls `touch()` inside the mutating branch. -/
theorem lastUpdatedAt_skip_counterexample :
    (addUserConcern "pricing" 5 ctxSeen).lastUpdatedAt = 0 ∧
    (addRecommendation "ship" 5 ctxSeen).lastUpdatedAt = 0 ∧
    (updateTodoStatus 99 .completed 5 ctxSeen).lastUpdatedAt = 0 ∧
    (0 : Int) ≠ 5 := by
  decide

/-- C7 (amended): `updateIdea`, `cacheAnalysis`, `setFocus`, `addTodo`,
`updateTodos` and `clearRecommendations` always set `lastUpdatedAt := now`;
`addUserConcern` and `addRecommendation` do so exactly when the string was
absent (a duplicate call leaves `lastUpdatedAt` unchanged), and
`updateTodoStatus` exactly when the index is in range. -/
theorem mutators_touch (ctx : ConversationContext) (now : Int) (p : IdeaPatch)
    (k : AnalysisKind) (d : JsValue) (f : Option Focus) (x r content activeForm : String)
    (pr : TodoPriority) (ts : List Todo) (i : Nat) (st : TodoStatus) :
    (updateIdea p now ctx).lastUpdatedAt = now ∧
    (cacheAnalysis k d now ctx).lastUpdatedAt = now ∧
    (setFocus f now ctx).lastUpdatedAt = now ∧
    (addTodo content activeForm pr now ctx).lastUpdatedAt = now ∧
    (updateTodos ts now ctx).lastUpdatedAt = now ∧
    (clearRecommendations now ctx).lastUpdatedAt = now ∧
    (x ∉ ctx.workingMemory.userConcerns → (addUserConcern x now ctx).lastUpdatedAt = now) ∧
    (x ∈ ctx.workingMemory.userConcerns →
      (addUserConcern x now ctx).lastUpdatedAt = ctx.lastUpdatedAt) ∧
    (r ∉ ctx.workingMemory.recommendations →
      (addRecommendation r now ctx).lastUpdatedAt = now) ∧
    (r ∈ ctx.workingMemory.recommendations →
      (addRecommendation r now ctx).lastUpdatedAt = ctx.lastUpdatedAt) ∧
    (∀ t, ctx.workingMemory.todos[i]? = some t →
      (updateTodoStatus i st now ctx).lastUpdatedAt = now) ∧
    (ctx.workingMemory.todos[i]? = none →
      (updateTodoStatus i st now ctx).lastUpdatedAt = ctx.lastUpdatedAt) := by
  refine ⟨rfl, rfl, rfl, rfl, rfl, rfl, ?_, ?_, ?_, ?_, ?_, ?_⟩
  · intro h
    unfold addUserConcern
    rw [if_neg (fun hc => h (contains_mem_iff.mp hc))]
    rfl
  · intro h
    rw [addUserConcern_mem_eq h]
  · intro h
    unfold addRecommendation
    rw [if_neg (fun hc => h (contains_mem_iff.mp hc))]
    rfl
  · intro h
    rw [addRecommendation_mem_eq h]
  · intro t h
    unfold updateTodoStatus
    rw [h]
    rfl
  · intro h
    unfold updateTodoStatus
    rw [h]

theorem mutators_touch_witness :
    (clearRecommendations 9 ctxSeen).lastUpdatedAt = 9 ∧
    (addUserConcern "growth" 9 ctxSeen).lastUpdatedAt = 9 :=
  ⟨(mutators_touch ctxSeen 9 {} .market .vnull none "x" "r" "c" "a" .medium [] 0
      .pending).2.2.2.2.2.1,
   (mutators_touch ctxSeen 9 {} .market .vnull none "growth" "r" "c" "a" .medium [] 0
      .pending).2.2.2.2.2.2.1 (by decide)⟩

theorem ideaSection_eq_nil (ctx : ConversationContext) :
    ideaSection ctx = [] ↔ hasIdea ctx = false := by
  unfold ideaSection hasIdea
  cases h : ctx.workingMemory.idea with
  | none => simp
  | some i =>
    cases hd : i.description with
    | none => simp [hd]
    | some d => by_cases hde : d = "" <;> simp [hd, hde]

theorem analysesSection_eq_nil (now : Int) (ctx : ConversationContext) :
    analysesSection now ctx = [] ↔ getCompletedAnalyses now ctx = [] := by
  by_cases h : getCompletedAnalyses now ctx = [] <;>
    simp [analysesSection, List.isEmpty_iff, h]

theorem focusSection_eq_nil (ctx : ConversationContext) :
    focusSection ctx = [] ↔ ctx.workingMemory.currentFocus = none := by
  unfold focusSection
  cases h : ctx.workingMemory.currentFocus <;> simp

theorem bulletBlock_eq_nil (header : String) (items : List String) :
    bulletBlock header items = [] ↔ items = [] := by
  by_cases h : items = [] <;> simp [bulletBlock, List.isEmpty_iff, h]

theorem todosSection_eq_nil (ctx : ConversationContext) :
    todosSection ctx = [] ↔ ctx.workingMemory.todos = [] := by
  have hperm := perm_sortLe todoLe ctx.workingMemory.todos
  by_cases h : ctx.workingMemory.todos = []
  · have hs : getTodos ctx = [] := by
      rw [getTodos, sortTodos, h]
      rfl
    simp [todosSection, hs, h]
  · have hs : getTodos ctx ≠ [] := by
      intro hnil
      rw [getTodos, sortTodos] at hnil
      rw [hnil] at hperm
      exact h (hperm.symm.eq_nil)
    simp [todosSection, List.isEmpty_iff, hs, h]

theorem contextParts_eq_nil (now : Int) (ctx : ConversationContext) :
    contextParts now ctx = [] ↔
      (hasIdea ctx = false ∧ getCompletedAnalyses now ctx = [] ∧
        ctx.workingMemory.currentFocus = none ∧ ctx.workingMemory.userConcerns = [] ∧
        ctx.workingMemory.recommendations = [] ∧ ctx.workingMemory.todos = []) := by
  unfold contextParts concernsSection recsSection
  rw [List.append_eq_nil, List.append_eq_nil, List.append_eq_nil, List.append_eq_nil,
    List.append_eq_nil, ideaSection_eq_nil, analysesSection_eq_nil, focusSection_eq_nil,
    bulletBlock_eq_nil, bulletBlock_eq_nil, todosSection_eq_nil]
  tauto

theorem bounded_ne_empty (mid : String) :
    ("\n--- CONTEXT ---\n" ++ mid ++ "\n--- END CONTEXT ---\n") ≠ "" := by
  intro h
  have hlen := congrArg String.length h
  rw [String.length_append, String.length_append] at hlen
  have h17 : ("\n--- CONTEXT ---\n" : String).length = 17 := by decide
  have h0 : ("" : String).length = 0 := rfl
  omega

/-- C8 (amended): `buildContextSummary` returns `""` exactly when the working
memory has no idea (in the `hasIdea` sense), no completed unexpired analyses,
no focus, no concerns, no recommendations and no todos — in particular on a
fresh MemoryManager — and otherwise returns
`"\n--- CONTEXT ---\n" ++ body ++ "\n--- END CONTEXT ---\n"`: the block is
bounded by the two marker lines but starts with a blank line before the
opening marker (see `contextSummary_marker_counterexample`). -/
theorem buildContextSummary_bounds (now : Int) (ctx : ConversationContext) :
    (buildContextSummary now ctx = "" ↔
      (hasIdea ctx = false ∧ getCompletedAnalyses now ctx = [] ∧
        ctx.workingMemory.currentFocus = none ∧ ctx.workingMemory.userConcerns = [] ∧
        ctx.workingMemory.recommendations = [] ∧ ctx.workingMemory.todos = [])) ∧
    (buildContextSummary now ctx = "" ∨
      ∃ mid, buildContextSummary now ctx =
        "\n--- CONTEXT ---\n" ++ mid ++ "\n--- END CONTEXT ---\n") := by
  by_cases hp : contextParts now ctx = []
  · have he : buildContextSummary now ctx = "" := by
      simp [buildContextSummary, hp]
    refine ⟨?_, Or.inl he⟩
    rw [he]
    exact ⟨fun _ => (contextParts_eq_nil now ctx).mp hp, fun _ => rfl⟩
  · have hb : buildContextSummary now ctx =
        "\n--- CONTEXT ---\n" ++ String.intercalate "\n" (contextParts now ctx) ++
          "\n--- END CONTEXT ---\n" := by
      unfold buildContextSummary
      rw [if_pos (List.length_pos.mpr hp)]
    refine ⟨?_, Or.inr ⟨String.intercalate "\n" (contextParts now ctx), hb⟩⟩
    rw [hb]
    constructor
    · intro he
      exact absurd he (bounded_ne_empty _)
    · intro hc
      exact absurd ((contextParts_eq_nil now ctx).mpr hc) hp

/-- C8 witness: a freshly constructed MemoryManager renders the empty string. -/
theorem buildContextSummary_bounds_witness :
    buildContextSummary 7 (initCtx "sess" 0) = "" :=
  (buildContextSummary_bounds 7 (initCtx "sess" 0)).1.mpr (by decide)

/-- C8 counterexample: with one user concern the summary is nonempty but its
first character is a newline, so the returned block does not begin with the
literal line `--- CONTEXT ---` (its first line is empty). -/
theorem contextSummary_marker_counterexample :
    buildContextSummary 0 ctxSeen ≠ "" ∧
    (buildContextSummary 0 ctxSeen).data.head? = some '\n' ∧
    (("--- CONTEXT ---".data).isPrefixOf (buildContextSummary 0 ctxSeen).data) = false := by
  decide

/-- C9: `detectUserIntent` always returns one of the five intents (its return
type), and the result is characterised by the ordered keyword-group cascade
over the lower-cased text: competitor wins first, then market, then customer,
then report, and `general` is returned exactly when no group has a matching
substring keyword. -/
theorem detectUserIntent_cascade (text : String) :
    (detectUserIntent text = .ask_competitor ↔
      (∃ kw ∈ competitorKeywords, includesStr (strToLower text) kw = true)) ∧
    (detectUserIntent text = .ask_market ↔
      (¬ (∃ kw ∈ competitorKeywords, includesStr (strToLower text) kw = true) ∧
        (∃ kw ∈ marketKeywords, includesStr (strToLower text) kw = true))) ∧
    (detectUserIntent text = .ask_customer ↔
      (¬ (∃ kw ∈ competitorKeywords, includesStr (strToLower text) kw = true) ∧
        ¬ (∃ kw ∈ marketKeywords, includesStr (strToLower text) kw = true) ∧
        (∃ kw ∈ customerKeywords, includesStr (strToLower text) kw = true))) ∧
    (detectUserIntent text = .ask_report ↔
      (¬ (∃ kw ∈ competitorKeywords, includesStr (strToLower text) kw = true) ∧
        ¬ (∃ kw ∈ marketKeywords, includesStr (strToLower text) kw = true) ∧
        ¬ (∃ kw ∈ customerKeywords, includesStr (strToLower text) kw = true) ∧
        (∃ kw ∈ reportKeywords, includesStr (strToLower text) kw = true))) ∧
    (detectUserIntent text = .general ↔
      (¬ (∃ kw ∈ competitorKeywords, includesStr (strToLower text) kw = true) ∧
        ¬ (∃ kw ∈ marketKeywords, includesStr (strToLower text) kw = true) ∧
        ¬ (∃ kw ∈ customerKeywords, includesStr (strToLower text) kw = true) ∧
        ¬ (∃ kw ∈ reportKeywords, includesStr (strToLower text) kw = true))) := by
  have e1 : (∃ kw ∈ competitorKeywords, includesStr (strToLower text) kw = true) ↔
      matchesAny (strToLower text) competitorKeywords = true := List.any_eq_true.symm
  have e2 : (∃ kw ∈ marketKeywords, includesStr (strToLower text) kw = true) ↔
      matchesAny (strToLower text) marketKeywords = true := List.any_eq_true.symm
  have e3 : (∃ kw ∈ customerKeywords, includesStr (strToLower text) kw = true) ↔
      matchesAny (strToLower text) customerKeywords = true := List.any_eq_true.symm
  have e4 : (∃ kw ∈ reportKeywords, includesStr (strToLower text) kw = true) ↔
      matchesAny (strToLower text) reportKeywords = true := List.any_eq_true.symm
  rw [e1, e2, e3, e4]
  cases h1 : matchesAny (strToLower text) competitorKeywords <;>
    cases h2 : matchesAny (strToLower text) marketKeywords <;>
      cases h3 : matchesAny (strToLower text) customerKeywords <;>
        cases h4 : matchesAny (strToLower text) reportKeywords <;>
          simp [detectUserIntent, h1, h2, h3, h4]

theorem detectUserIntent_cascade_witness :
    detectUserIntent "What is the TAM?" = .ask_market :=
  ((detectUserIntent_cascade "What is the TAM?").2.1).mpr
    ⟨by decide, ⟨"tam", by decide, by decide⟩⟩

/-- C10: `hasIdea` holds exactly when the idea object exists with a non-empty
description; when the idea object is set but its description is the empty
string, `hasIdea` is `false`, `getIdea` still returns the object, and
`buildContextSummary` renders exactly what it would render with no idea at
all (the whole STARTUP IDEA section, including the Target Market and Category
lines, is omitted). -/
theorem hasIdea_requires_description (now : Int) (ctx : ConversationContext)
    (i : IdeaContext) :
    (∀ ctx2 : ConversationContext, hasIdea ctx2 = true ↔
      ∃ i2 s, ctx2.workingMemory.idea = some i2 ∧ i2.description = some s ∧ s ≠ "") ∧
    (ctx.workingMemory.idea = some i → i.description = some "" →
      hasIdea ctx = false ∧ getIdea ctx = some i ∧
      buildContextSummary now ctx =
        buildContextSummary now
          { ctx with workingMemory := { ctx.workingMemory with idea := none } }) := by
  constructor
  · intro ctx2
    unfold hasIdea
    cases h : ctx2.workingMemory.idea with
    | none => simp
    | some j =>
      cases hd : j.description with
      | none => simp [hd]
      | some s => simp [hd, bne_iff_ne]
  · intro h1 h2
    have hhi : hasIdea ctx = false := by
      unfold hasIdea
      rw [h1]
      dsimp only
      rw [h2]
      decide
    refine ⟨hhi, h1, ?_⟩
    unfold buildContextSummary contextParts
    rw [(ideaSection_eq_nil ctx).mpr hhi]
    rfl

theorem hasIdea_requires_description_witness :
    hasIdea ctxIdeaEmpty = false ∧ getIdea ctxIdeaEmpty = some ideaEmptyDesc ∧
    buildContextSummary 3 ctxIdeaEmpty =
      buildContextSummary 3
        { ctxIdeaEmpty with
            workingMemory := { ctxIdeaEmpty.workingMemory with idea := none } } :=
  (hasIdea_requires_description 3 ctxIdeaEmpty ideaEmptyDesc).2 rfl rfl

